import Mathlib

/-!
Verification of the Photo Story media-delivery subsystem.

The backend (`backend/routes.ts`) runs on a posix filesystem; path strings
are modelled as lists of characters and a canonical absolute path as its
list of `/`-separated segments. `String`s stay at every function boundary
exactly where the TypeScript passes strings; the Node `path.posix`
primitives (`resolve`, `basename`, `extname`) are embedded at the
character/segment level.
-/

namespace PhotoStory

/-- A path segment: the characters between two `/` separators. -/
abbrev Seg := List Char

/-- Accumulator-based splitting of a character list on `/`, dropping empty
segments (as Node's normalization does for repeated separators). -/
def splitSegsAux : List Char → List Char → List Seg
  | [], cur => if cur.isEmpty then [] else [cur.reverse]
  | c :: rest, cur =>
    if c = '/' then
      if cur.isEmpty then splitSegsAux rest []
      else cur.reverse :: splitSegsAux rest []
    else splitSegsAux rest (c :: cur)

/-- Split a character list into its nonempty `/`-separated segments. -/
def splitSegs (l : List Char) : List Seg := splitSegsAux l []

/-- Join segments back with `/` separators (no leading or trailing slash). -/
def joinSegs : List Seg → List Char
  | [] => []
  | [s] => s
  | s :: s' :: rest => s ++ '/' :: joinSegs (s' :: rest)

/-- The `.` path segment. -/
def dotSeg : Seg := ['.']

/-- The `..` path segment. -/
def dotDotSeg : Seg := ['.', '.']

/-- One step of absolute-path canonicalization: `.` is dropped and `..`
pops the last segment (or is dropped at the root), as in Node's
`path.posix.resolve`. -/
def resolveStep (acc : List Seg) (seg : Seg) : List Seg :=
  if seg = dotSeg then acc
  else if seg = dotDotSeg then acc.dropLast
  else acc ++ [seg]

/-- Canonicalize the segments of an absolute path, resolving every `.` and
`..` segment (a `..` at the root is dropped, as `path.posix.resolve` does). -/
def resolveAbsSegs (l : List Seg) : List Seg := l.foldl resolveStep []

/-- One step of relative-path normalization: like `resolveStep`, except a
`..` that cannot pop anything is kept (Node's `path.posix.normalize` on a
relative path preserves leading `..` segments). -/
def normRelStep (acc : List Seg) (seg : Seg) : List Seg :=
  if seg = dotSeg then acc
  else if seg = dotDotSeg then
    if acc.getLast? = some dotDotSeg ∨ acc = [] then acc ++ [dotDotSeg]
    else acc.dropLast
  else acc ++ [seg]

/-- Normalize the segments of a relative path, keeping any `..` segments
that would climb above its starting point. -/
def normRelSegs (l : List Seg) : List Seg := l.foldl normRelStep []

/-- Model of `path.posix.resolve(root, p)` for an absolute `root`,
returning the canonical segment list of the resulting absolute path. -/
def pathResolveSegs (root p : String) : List Seg :=
  if p.data.head? = some '/' then resolveAbsSegs (splitSegs p.data)
  else resolveAbsSegs (splitSegs root.data ++ splitSegs p.data)

/-- The check `abs.startsWith(rootResolved + path.sep) || abs === rootResolved`
from `resolveUploadsFilePath` (backend/routes.ts, lines 65-73), expressed on
the canonical segment lists of the two `path.resolve` outputs. On canonical
absolute path strings the string comparison coincides with segment-prefix
containment; the `rootSegs = []` branch captures the resolved root `"/"`,
where `rootResolved + sep = "//"` is a string prefix of no canonical path,
so only `abs === rootResolved` can succeed. -/
def underRoot (rootSegs absSegs : List Seg) : Bool :=
  if rootSegs.isEmpty then absSegs.isEmpty else rootSegs.isPrefixOf absSegs

/-- Embedding of `resolveUploadsFilePath` (backend/routes.ts, lines 65-73):
join the untrusted `uploadsPath` onto the uploads root with `path.resolve`,
and return the canonicalized absolute path only when it still lies under
the resolved root; otherwise `null`. The returned string is represented by
its canonical segment list. -/
def resolveUploadsFilePath (root uploadsPath : String) : Option (List Seg) :=
  let abs := pathResolveSegs root uploadsPath
  let rootResolved := resolveAbsSegs (splitSegs root.data)
  if underRoot rootResolved abs then some abs else none

/-- Model of `path.posix.basename(p)`: the last `/`-separated segment,
ignoring trailing slashes. -/
def basenameChars (l : List Char) : List Char :=
  (((l.reverse).dropWhile (fun c => c = '/')).takeWhile (fun c => ¬ c = '/')).reverse

/-- Model of `path.posix.extname(p)`: the suffix of the basename from its
last `.`, or empty when the basename has no dot, when its only dot is its
first character (dotfiles), or when it is `..`. -/
def extnameChars (l : List Char) : List Char :=
  let b := basenameChars l
  if b = dotDotSeg then []
  else
    let afterDot := b.reverse.takeWhile (fun c => ¬ c = '.')
    if afterDot.length = b.length ∨ afterDot.length + 1 = b.length then []
    else '.' :: afterDot.reverse

/-- Model of `path.posix.basename(p, ext)`: the basename with a trailing
`ext` stripped, unless the basename is exactly `ext`. -/
def basenameExtChars (l ext : List Char) : List Char :=
  let b := basenameChars l
  if b = ext then b
  else if ext.isSuffixOf b then b.take (b.length - ext.length)
  else b

/-- Embedding of `resolveSizedFilename` (backend/routes.ts, lines 75-92):
no size, `"large"`, or an unrecognized size leaves the filename unchanged;
`"thumbnail"` and `"medium"` insert `-thumb` / `-medium` between the
basename (directory prefix dropped) and the extension. An absent query
parameter is `none`; JavaScript's falsy check `!size` also catches the
empty string, which the final catch-all branch returns unchanged anyway. -/
def resolveSizedFilename (filename : String) (size : Option String) : String :=
  let ext := extnameChars filename.data
  let name := basenameExtChars filename.data ext
  match size with
  | none => filename
  | some s =>
    if s = "large" then filename
    else if s = "thumbnail" then ⟨name ++ "-thumb".data ++ ext⟩
    else if s = "medium" then ⟨name ++ "-medium".data ++ ext⟩
    else filename

/-- Modelled from the spec: `normalizeUploadsPath` is imported from
`utils/uploadsSigning`, which is outside this extracted module. Per the
spec (§4.2 step 2) it rejects any stored filename that, once normalized
(resolving `.` and `..` segments), is empty, still contains
parent-directory segments, or is absolute and would therefore resolve
outside the configured storage root; otherwise it returns the normalized
relative filename. -/
def normalizeUploadsPath (p : String) : Option String :=
  if p.data.head? = some '/' then none
  else
    let segs := normRelSegs (splitSegs p.data)
    if segs.isEmpty then none
    else if segs.contains dotDotSeg then none
    else some ⟨joinSegs segs⟩

/-- The authenticated caller attached to the request by the auth
middleware (`AuthRequest["user"]`); absent for anonymous requests. -/
structure AuthUser where
  id : String
  role : String
deriving DecidableEq

/-- A row of the `AppInstance` table (backend/schema, development plan §3):
identity, app kind, routable slug, activation flag, and the
`allowedGroupIds` entry of the JSON `config` blob. `configAllowedGroupIds`
is `some l` exactly when `config` holds an array under `allowedGroupIds`;
`none` models every other shape (null config, missing key, non-array),
which the code collapses to the empty list. -/
structure AppInstance where
  id : String
  type : String
  slug : String
  isActive : Bool
  configAllowedGroupIds : Option (List String)
deriving DecidableEq

/-- A row of the `Media` table as read by the image route: stored filename
(nullable) and URL. -/
structure Media where
  filename : Option String
  url : String
deriving DecidableEq

/-- A row of the `PhotoPost` table with its included `media` relation. -/
structure PhotoPost where
  appInstanceId : String
  mediaId : String
  media : Media
deriving DecidableEq

/-- The persistent store read through prisma: app instances (slug is
unique), the user-group membership relation, photo posts, and the set of
files present on disk (the paths for which `fs.existsSync` is true), each
as a canonical absolute segment list. -/
structure Store where
  apps : List AppInstance
  userGroups : List (String × String)
  posts : List PhotoPost
  files : List (List Seg)
deriving DecidableEq

/-- The result record of `pickAccessibleAppInstance`: the two not-found
early returns carry no `allowedGroupIds` field (`none` here); the later
returns carry the list read from the config. -/
structure AccessResult where
  app : Option AppInstance
  allowed : Bool
  allowedGroupIds : Option (List String)
deriving DecidableEq

/-- The privilege check `authUser?.role === "ADMIN" || authUser?.role ===
"EDITOR"` (backend/routes.ts, lines 107-108). -/
def isPrivilegedRole (authUser : Option AuthUser) : Bool :=
  match authUser with
  | some u => u.role == "ADMIN" || u.role == "EDITOR"
  | none => false

/-- The group ids of a user: `prisma.userGroup.findMany({where: {userId}})`
mapped to `groupId` (backend/routes.ts, lines 126-128). -/
def userGroupIdsOf (db : Store) (userId : String) : List String :=
  (db.userGroups.filter (fun ug => ug.1 == userId)).map (fun ug => ug.2)

/-- Embedding of `pickAccessibleAppInstance` (backend/routes.ts, lines
95-132): look the tenant up by slug, require kind `PHOTO_STORY`, let only
privileged callers through to an inactive tenant, then allow when the
configured group list is empty or the caller is privileged, deny an
anonymous caller otherwise, and otherwise allow exactly when the caller's
group memberships meet the configured list. -/
def pickAccessibleAppInstance (db : Store) (slug : String)
    (authUser : Option AuthUser) : AccessResult :=
  match db.apps.find? (fun a => a.slug == slug) with
  | none => ⟨none, false, none⟩
  | some app =>
    if app.type ≠ "PHOTO_STORY" then ⟨none, false, none⟩
    else
      let isPrivileged := isPrivilegedRole authUser
      if !isPrivileged && !app.isActive then ⟨none, false, none⟩
      else
        let allowedGroupIds := (app.configAllowedGroupIds).getD []
        if allowedGroupIds.isEmpty || isPrivileged then
          ⟨some app, true, some allowedGroupIds⟩
        else
          match authUser with
          | none => ⟨some app, false, some allowedGroupIds⟩
          | some u =>
            let userGroupIds := userGroupIdsOf db u.id
            let hasAccess := allowedGroupIds.any (fun g => userGroupIds.contains g)
            ⟨some app, hasAccess, some allowedGroupIds⟩

/-- Server configuration read by the route: `env.UPLOADS_DIR`, the process
working directory, `env.UPLOADS_SERVE_STRATEGY`, and
`env.UPLOADS_ACCEL_REDIRECT_PREFIX`. -/
structure ServerEnv where
  uploadsDir : Option String
  cwd : String
  uploadsServeStrategy : String
  uploadsAccelRedirectPrefix : String
deriving DecidableEq

/-- Embedding of `getUploadsRootDir` (backend/routes.ts, lines 62-63):
`env.UPLOADS_DIR ?? path.join(process.cwd(), "uploads")`. -/
def getUploadsRootDir (cfg : ServerEnv) : String :=
  cfg.uploadsDir.getD (cfg.cwd ++ "/uploads")

/-- The response observable at the route boundary: status code, JSON
message body, `Cache-Control` header, `X-Accel-Redirect` header value, and
the absolute path handed to `res.sendFile`. -/
structure Response where
  status : Nat
  message : Option String
  cacheControl : Option String
  xAccelRedirect : Option (List Char)
  sentFile : Option (List Seg)
deriving DecidableEq

/-- Shorthand for `res.status(n).json({message})` with no other headers. -/
def jsonResponse (status : Nat) (msg : String) : Response :=
  ⟨status, some msg, none, none, none⟩

/-- JavaScript's `url.replace("/uploads/", "")`: remove the leftmost
occurrence of the pattern, or leave the list unchanged. -/
def replaceFirstChars (pat : List Char) : List Char → List Char
  | [] => []
  | c :: rest =>
    if pat.isPrefixOf (c :: rest) then (c :: rest).drop pat.length
    else c :: replaceFirstChars pat rest

/-- The expression `post.media.url.replace("/uploads/", "")` from the image route. -/
def stripUploads (url : String) : String :=
  ⟨replaceFirstChars "/uploads/".data url.data⟩

/-- The raw filename of the image route:
`post.media.filename || post.media.url.replace("/uploads/", "")`, where a
null or empty (falsy) stored filename falls back to the stripped URL. -/
def rawFilenameOf (post : PhotoPost) : String :=
  match post.media.filename with
  | some f => if f = "" then stripUploads post.media.url else f
  | none => stripUploads post.media.url

/-- The `X-Accel-Redirect` prefix massaging of the image route
(backend/routes.ts, lines 1024-1030): force a leading and a trailing
slash onto `env.UPLOADS_ACCEL_REDIRECT_PREFIX`. -/
def accelPrefixChars (raw : String) : List Char :=
  let withLead := if raw.data.head? = some '/' then raw.data else '/' :: raw.data
  if withLead.getLast? = some '/' then withLead else withLead ++ ['/']

/-- Embedding of the image route `GET /apps/:slug/image/:mediaId`
(backend/routes.ts, lines 970-1041): resolve tenant access, look the post
up scoped to the tenant, normalize the stored filename, synthesize the
sized variant, resolve both paths under the uploads root, fall back to the
canonical file when the variant is absent on disk, and answer either with
an `X-Accel-Redirect` header (strategy `"accel"`) or by sending the file. -/
def serveImage (cfg : ServerEnv) (db : Store) (slug mediaId : String)
    (size : Option String) (authUser : Option AuthUser) : Response :=
  let res := pickAccessibleAppInstance db slug authUser
  match res.app with
  | none => jsonResponse 404 "App not found"
  | some app =>
    if !res.allowed then jsonResponse 404 "App not found"
    else
      match db.posts.find? (fun p => p.appInstanceId == app.id && p.mediaId == mediaId) with
      | none => jsonResponse 404 "Image not found"
      | some post =>
        match normalizeUploadsPath (rawFilenameOf post) with
        | none => jsonResponse 400 "Invalid media filename"
        | some safeFilename =>
          let requestedFilename := resolveSizedFilename safeFilename size
          let uploadRoot := getUploadsRootDir cfg
          match resolveUploadsFilePath uploadRoot requestedFilename,
                resolveUploadsFilePath uploadRoot safeFilename with
          | some requestedPath, some fallbackPath =>
            let requestedExists := db.files.contains requestedPath
            let fileToServe := if requestedExists then requestedFilename else safeFilename
            let absPath := if requestedExists then requestedPath else fallbackPath
            if !db.files.contains absPath then jsonResponse 404 "File not found"
            else if cfg.uploadsServeStrategy = "accel" then
              { status := 200, message := none,
                cacheControl := some "private, max-age=300",
                xAccelRedirect :=
                  some (accelPrefixChars cfg.uploadsAccelRedirectPrefix ++ fileToServe.data),
                sentFile := none }
            else
              { status := 200, message := none,
                cacheControl := some "private, max-age=300",
                xAccelRedirect := none,
                sentFile := some (pathResolveSegs uploadRoot fileToServe) }
          | _, _ => jsonResponse 400 "Invalid resolved file path"

/-- The module-level client cache of `AuthorizedImage`
(frontend/AuthorizedImage.tsx): the `imageCache` map from cache key to
object URL, together with a counter of network fetches performed. -/
structure ClientState where
  cache : List (String × String)
  fetches : Nat
deriving DecidableEq

/-- The memoization key of `AuthorizedImage` when a token is present:
`` `${src}|${token}` `` (frontend/AuthorizedImage.tsx, lines 22-25). -/
def cacheKey (src token : String) : String := src ++ "|" ++ token

/-- One run of the authorized-fetch effect of `AuthorizedImage` for a
credentialled mount (frontend/AuthorizedImage.tsx, lines 36-88): a cache
hit resolves to the cached object URL without touching the network;
otherwise `fetch` runs once — modelled by `net`, which yields the object
URL made from the response blob on success — and a success is stored in
the cache while a failure falls back to the raw locator and is not
cached. Returns the resolved src and the updated client state. -/
def authorizedFetch (net : String → Option String) (st : ClientState)
    (src token : String) : String × ClientState :=
  match st.cache.lookup (cacheKey src token) with
  | some cached => (cached, st)
  | none =>
    match net src with
    | some handle => (handle, ⟨(cacheKey src token, handle) :: st.cache, st.fetches + 1⟩)
    | none => (src, ⟨st.cache, st.fetches + 1⟩)

/-- The shape every filename accepted by `normalizeUploadsPath` has: it is
relative and splits into a nonempty list of segments none of which is `.`
or `..`. -/
def cleanName (f : String) : Prop :=
  f.data.head? ≠ some '/' ∧ splitSegs f.data ≠ [] ∧
    ∀ s ∈ splitSegs f.data, s ≠ dotSeg ∧ s ≠ dotDotSeg

/-! ### Concrete fixtures used to exercise the embedding -/

/-- A direct-streaming server configuration with storage root `/srv/uploads`. -/
def cfgW : ServerEnv := ⟨some "/srv/uploads", "/app", "direct", "protected-uploads"⟩

/-- An open, active photo-story tenant. -/
def travelApp : AppInstance := ⟨"A1", "PHOTO_STORY", "travel", true, none⟩

/-- An active photo-story tenant restricted to group `G1`. -/
def familyApp : AppInstance := ⟨"A2", "PHOTO_STORY", "family", true, some ["G1"]⟩

/-- A tenant of another kind sharing the slug namespace. -/
def wikiApp : AppInstance := ⟨"A3", "WIKI", "wiki", true, none⟩

/-- An inactive photo-story tenant. -/
def archiveApp : AppInstance := ⟨"A4", "PHOTO_STORY", "archive", false, none⟩

/-- Media `m1`, owned by the `travel` tenant. -/
def sunsetPost : PhotoPost := ⟨"A1", "m1", ⟨some "sunset.jpg", "/uploads/sunset.jpg"⟩⟩

/-- Media `m2`, owned by the `family` tenant. -/
def famPost : PhotoPost := ⟨"A2", "m2", ⟨some "fam.jpg", "/uploads/fam.jpg"⟩⟩

/-- A store with the four tenants, one user in `G1`, the two posts, and
only `/srv/uploads/sunset.jpg` present on disk. -/
def dbW : Store :=
  ⟨[travelApp, familyApp, wikiApp, archiveApp], [("U1", "G1")],
    [sunsetPost, famPost], [["srv".data, "uploads".data, "sunset.jpg".data]]⟩

/-! ### Structural lemmas about the path model -/

theorem isPrefixOf_eq_true_iff (A B : List Seg) : A.isPrefixOf B = true ↔ A <+: B := by
  induction A generalizing B with
  | nil => simp [List.isPrefixOf]
  | cons a as ih =>
    cases B with
    | nil => simp [List.isPrefixOf]
    | cons b bs => simp [List.isPrefixOf, ih, List.cons_prefix_cons, And.comm]

theorem mem_splitSegsAux {l cur : List Char} (hcur : '/' ∉ cur) :
    ∀ s ∈ splitSegsAux l cur, s ≠ [] ∧ '/' ∉ s := by
  induction l generalizing cur with
  | nil =>
    intro s hs
    unfold splitSegsAux at hs
    by_cases h : cur.isEmpty
    · simp [h] at hs
    · simp [h] at hs
      subst hs
      rw [List.isEmpty_iff] at h
      constructor
      · simpa using h
      · simpa using hcur
  | cons c rest ih =>
    intro s hs
    unfold splitSegsAux at hs
    by_cases hc : c = '/'
    · simp only [hc, if_pos rfl] at hs
      by_cases h : cur.isEmpty
      · simp [h] at hs
        exact ih (by simp) s hs
      · simp [h] at hs
        rcases hs with hs | hs
        · subst hs
          rw [List.isEmpty_iff] at h
          exact ⟨by simpa using h, by simpa using hcur⟩
        · exact ih (by simp) s hs
    · rw [if_neg hc] at hs
      exact ih (by simp [hcur, Ne.symm hc, hc]) s hs

theorem mem_splitSegs {l : List Char} : ∀ s ∈ splitSegs l, s ≠ [] ∧ '/' ∉ s :=
  mem_splitSegsAux (by simp)

theorem splitSegsAux_append_seg (s t cur : List Char) (hs : '/' ∉ s) :
    splitSegsAux (s ++ t) cur = splitSegsAux t (s.reverse ++ cur) := by
  induction s generalizing cur with
  | nil => simp
  | cons c cs ih =>
    have hc : c ≠ '/' := fun h => hs (h ▸ List.mem_cons_self c cs)
    have hcs : '/' ∉ cs := fun h => hs (List.mem_cons_of_mem c h)
    show splitSegsAux (c :: (cs ++ t)) cur = _
    simp only [splitSegsAux, if_neg hc]
    rw [ih (c :: cur) hcs]
    simp

theorem splitSegs_join (segs : List Seg) (h : ∀ s ∈ segs, s ≠ [] ∧ '/' ∉ s) :
    splitSegs (joinSegs segs) = segs := by
  induction segs with
  | nil => rfl
  | cons s rest ih =>
    obtain ⟨hs, hsl⟩ := h s (List.mem_cons_self s rest)
    cases rest with
    | nil =>
      show splitSegsAux (joinSegs [s]) [] = [s]
      have : joinSegs [s] = s ++ [] := by simp [joinSegs]
      rw [this, splitSegsAux_append_seg s [] [] hsl]
      unfold splitSegsAux
      simp [hs]
    | cons s' rest' =>
      show splitSegsAux (s ++ '/' :: joinSegs (s' :: rest')) [] = s :: s' :: rest'
      rw [splitSegsAux_append_seg s _ [] hsl]
      unfold splitSegsAux
      rw [if_pos rfl]
      have hrev : s.reverse ++ [] ≠ [] := by simpa using hs
      rw [if_neg (by simpa [List.isEmpty_iff] using hrev)]
      simp only [List.append_nil, List.reverse_reverse]
      exact congrArg (s :: ·) (ih (fun x hx => h x (List.mem_cons_of_mem s hx)))

theorem foldl_resolveStep_clean (S : List Seg)
    (hS : ∀ s ∈ S, s ≠ dotSeg ∧ s ≠ dotDotSeg) :
    ∀ acc, S.foldl resolveStep acc = acc ++ S := by
  induction S with
  | nil => simp
  | cons s rest ih =>
    intro acc
    obtain ⟨h1, h2⟩ := hS s (List.mem_cons_self s rest)
    show List.foldl resolveStep (resolveStep acc s) rest = _
    rw [ih (fun x hx => hS x (List.mem_cons_of_mem s hx))]
    unfold resolveStep
    rw [if_neg h1, if_neg h2]
    simp

theorem resolveAbsSegs_append_clean (R S : List Seg)
    (hS : ∀ s ∈ S, s ≠ dotSeg ∧ s ≠ dotDotSeg) :
    resolveAbsSegs (R ++ S) = resolveAbsSegs R ++ S := by
  unfold resolveAbsSegs
  rw [List.foldl_append]
  exact foldl_resolveStep_clean S hS _

theorem mem_foldl_normRelStep {L : List Seg} :
    ∀ acc x, x ∈ L.foldl normRelStep acc → x ∈ acc ∨ x ∈ L ∨ x = dotDotSeg := by
  induction L with
  | nil => intro acc x hx; exact Or.inl hx
  | cons s rest ih =>
    intro acc x hx
    rcases ih (normRelStep acc s) x hx with h | h | h
    · unfold normRelStep at h
      by_cases h1 : s = dotSeg
      · rw [if_pos h1] at h; exact Or.inl h
      · rw [if_neg h1] at h
        by_cases h2 : s = dotDotSeg
        · rw [if_pos h2] at h
          by_cases h3 : acc.getLast? = some dotDotSeg ∨ acc = []
          · rw [if_pos h3] at h
            rcases List.mem_append.mp h with h | h
            · exact Or.inl h
            · simp at h; exact Or.inr (Or.inr h)
          · rw [if_neg h3] at h
            exact Or.inl ((List.dropLast_sublist acc).mem h)
        · rw [if_neg h2] at h
          rcases List.mem_append.mp h with h | h
          · exact Or.inl h
          · simp at h; subst h; exact Or.inr (Or.inl (List.mem_cons_self x rest))
    · exact Or.inr (Or.inl (List.mem_cons_of_mem s h))
    · exact Or.inr (Or.inr h)

theorem mem_normRelSegs {L : List Seg} {x : Seg} (hx : x ∈ normRelSegs L) :
    x ∈ L ∨ x = dotDotSeg := by
  rcases mem_foldl_normRelStep [] x hx with h | h
  · simp at h
  · exact h

theorem not_dotSeg_foldl_normRelStep {L : List Seg} :
    ∀ acc, dotSeg ∉ acc → dotSeg ∉ L.foldl normRelStep acc := by
  induction L with
  | nil => intro acc h; exact h
  | cons s rest ih =>
    intro acc h
    apply ih
    unfold normRelStep
    by_cases h1 : s = dotSeg
    · rw [if_pos h1]; exact h
    · rw [if_neg h1]
      by_cases h2 : s = dotDotSeg
      · rw [if_pos h2]
        by_cases h3 : acc.getLast? = some dotDotSeg ∨ acc = []
        · rw [if_pos h3]
          intro hmem
          rcases List.mem_append.mp hmem with hm | hm
          · exact h hm
          · simp [dotSeg, dotDotSeg] at hm
        · rw [if_neg h3]
          intro hmem
          exact h ((List.dropLast_sublist acc).mem hmem)
      · rw [if_neg h2]
        intro hmem
        rcases List.mem_append.mp hmem with hm | hm
        · exact h hm
        · simp at hm; exact h1 (hm ▸ rfl)

theorem not_dotSeg_normRelSegs {L : List Seg} : dotSeg ∉ normRelSegs L :=
  not_dotSeg_foldl_normRelStep [] (by simp)

theorem head?_ne_of_not_mem {l : List Char} {c : Char} (h : c ∉ l) :
    l.head? ≠ some c := by
  cases l with
  | nil => simp
  | cons a rest =>
    intro hc
    simp at hc
    exact h (hc ▸ List.mem_cons_self a rest)

theorem splitSegs_singleton {l : List Char} (h1 : l ≠ []) (h2 : '/' ∉ l) :
    splitSegs l = [l] := by
  have : splitSegs l = splitSegsAux (l ++ []) [] := by simp [splitSegs]
  rw [this, splitSegsAux_append_seg l [] [] h2]
  unfold splitSegsAux
  rw [if_neg (by simpa [List.isEmpty_iff] using h1)]
  simp

theorem joinSegs_head?_ne_slash {segs : List Seg} (h1 : segs ≠ [])
    (h : ∀ s ∈ segs, s ≠ [] ∧ '/' ∉ s) : (joinSegs segs).head? ≠ some '/' := by
  cases segs with
  | nil => exact absurd rfl h1
  | cons s rest =>
    obtain ⟨hs, hsl⟩ := h s (List.mem_cons_self s rest)
    cases rest with
    | nil =>
      show (joinSegs [s]).head? ≠ some '/'
      simp only [joinSegs]
      exact head?_ne_of_not_mem hsl
    | cons s' rest' =>
      show (s ++ '/' :: joinSegs (s' :: rest')).head? ≠ some '/'
      cases s with
      | nil => exact absurd rfl hs
      | cons a as =>
        intro hc
        simp at hc
        exact hsl (hc ▸ List.mem_cons_self a as)

theorem mem_basenameChars_ne_slash {l : List Char} {c : Char}
    (h : c ∈ basenameChars l) : c ≠ '/' := by
  unfold basenameChars at h
  rw [List.mem_reverse] at h
  have := List.mem_takeWhile_imp h
  simpa using this

theorem mem_extnameChars_ne_slash {l : List Char} {c : Char}
    (h : c ∈ extnameChars l) : c ≠ '/' := by
  unfold extnameChars at h
  by_cases h1 : basenameChars l = dotDotSeg
  · rw [if_pos h1] at h; simp at h
  · rw [if_neg h1] at h
    by_cases h2 : (((basenameChars l).reverse.takeWhile fun c => ¬ c = '.').length
          = (basenameChars l).length)
        ∨ (((basenameChars l).reverse.takeWhile fun c => ¬ c = '.').length + 1
          = (basenameChars l).length)
    · rw [if_pos h2] at h; simp at h
    · rw [if_neg h2] at h
      rcases List.mem_cons.mp h with h | h
      · subst h; decide
      · rw [List.mem_reverse] at h
        have hb : c ∈ (basenameChars l).reverse :=
          (List.takeWhile_sublist _).mem h
        rw [List.mem_reverse] at hb
        exact mem_basenameChars_ne_slash hb

theorem mem_basenameExtChars {l ext : List Char} {c : Char}
    (h : c ∈ basenameExtChars l ext) : c ∈ basenameChars l := by
  unfold basenameExtChars at h
  by_cases h1 : basenameChars l = ext
  · rwa [if_pos h1] at h
  · rw [if_neg h1] at h
    by_cases h2 : ext.isSuffixOf (basenameChars l)
    · rw [if_pos h2] at h
      exact List.take_subset _ _ h
    · rwa [if_neg h2] at h

theorem cleanName_of_normalize {p t : String}
    (h : normalizeUploadsPath p = some t) : cleanName t := by
  unfold normalizeUploadsPath at h
  by_cases h1 : p.data.head? = some '/'
  · rw [if_pos h1] at h; exact absurd h (by simp)
  · rw [if_neg h1] at h
    by_cases h2 : (normRelSegs (splitSegs p.data)).isEmpty
    · rw [if_pos h2] at h; exact absurd h (by simp)
    · rw [if_neg h2] at h
      by_cases h3 : (normRelSegs (splitSegs p.data)).contains dotDotSeg
      · rw [if_pos h3] at h; exact absurd h (by simp)
      · rw [if_neg h3] at h
        have ht : t = ⟨joinSegs (normRelSegs (splitSegs p.data))⟩ := by
          simpa using h.symm
        have hne : normRelSegs (splitSegs p.data) ≠ [] := by
          simpa [List.isEmpty_iff] using h2
        have hnd : dotDotSeg ∉ normRelSegs (splitSegs p.data) := by
          simpa using h3
        have hcl : ∀ s ∈ normRelSegs (splitSegs p.data), s ≠ [] ∧ '/' ∉ s := by
          intro s hs
          rcases mem_normRelSegs hs with hm | hm
          · exact mem_splitSegs s hm
          · subst hm; exact ⟨by simp [dotDotSeg], by decide⟩
        have hdata : t.data = joinSegs (normRelSegs (splitSegs p.data)) := by
          rw [ht]
        have hsplit : splitSegs t.data = normRelSegs (splitSegs p.data) := by
          rw [hdata]; exact splitSegs_join _ hcl
        refine ⟨?_, ?_, ?_⟩
        · rw [hdata]; exact joinSegs_head?_ne_slash hne hcl
        · rw [hsplit]; exact hne
        · intro s hs
          rw [hsplit] at hs
          constructor
          · intro hd; exact not_dotSeg_normRelSegs (hd ▸ hs)
          · intro hd; exact hnd (hd ▸ hs)

theorem pathResolveSegs_of_clean {root f : String} (hf : cleanName f) :
    pathResolveSegs root f
      = resolveAbsSegs (splitSegs root.data) ++ splitSegs f.data := by
  obtain ⟨h1, h2, h3⟩ := hf
  unfold pathResolveSegs
  rw [if_neg h1, resolveAbsSegs_append_clean _ _ h3]

theorem resolveUploadsFilePath_of_clean {root f : String}
    (hroot : resolveAbsSegs (splitSegs root.data) ≠ []) (hf : cleanName f) :
    resolveUploadsFilePath root f
      = some (resolveAbsSegs (splitSegs root.data) ++ splitSegs f.data) := by
  unfold resolveUploadsFilePath
  rw [pathResolveSegs_of_clean hf]
  have hu : underRoot (resolveAbsSegs (splitSegs root.data))
      (resolveAbsSegs (splitSegs root.data) ++ splitSegs f.data) = true := by
    unfold underRoot
    rw [if_neg (by simpa [List.isEmpty_iff] using hroot)]
    exact (isPrefixOf_eq_true_iff _ _).mpr (List.prefix_append _ _)
  rw [if_pos hu]

theorem synth_no_slash (f : String) (mid : List Char) (hslash : '/' ∉ mid) :
    '/' ∉ (basenameExtChars f.data (extnameChars f.data) ++ mid
            ++ extnameChars f.data) := by
  intro hm
  rcases List.mem_append.mp hm with hm | hm
  · rcases List.mem_append.mp hm with hm | hm
    · exact mem_basenameChars_ne_slash (mem_basenameExtChars hm) rfl
    · exact hslash hm
  · exact mem_extnameChars_ne_slash hm rfl

theorem synth_clean (f : String) (mid : List Char) (hdash : '-' ∈ mid)
    (hslash : '/' ∉ mid) :
    cleanName ⟨basenameExtChars f.data (extnameChars f.data) ++ mid
                ++ extnameChars f.data⟩ := by
  set v : List Char := basenameExtChars f.data (extnameChars f.data) ++ mid
                ++ extnameChars f.data with hv
  have hmem : '-' ∈ v := by
    rw [hv]
    exact List.mem_append_left _ (List.mem_append_right _ hdash)
  have hnos : '/' ∉ v := by rw [hv]; exact synth_no_slash f mid hslash
  have hne : v ≠ [] := List.ne_nil_of_mem hmem
  have hsplit : splitSegs v = [v] := splitSegs_singleton hne hnos
  refine ⟨head?_ne_of_not_mem hnos,
    by rw [show (String.mk v).data = v from rfl, hsplit]; simp, ?_⟩
  intro s hs
  rw [show (String.mk v).data = v from rfl, hsplit] at hs
  simp at hs
  subst hs
  constructor
  · intro hd; rw [hd] at hmem; simp [dotSeg] at hmem
  · intro hd; rw [hd] at hmem; simp [dotDotSeg] at hmem

theorem cleanName_resolveSized {f : String} (hf : cleanName f)
    (size : Option String) : cleanName (resolveSizedFilename f size) := by
  have variantClean : ∀ mid : List Char, '-' ∈ mid → '/' ∉ mid →
      cleanName ⟨basenameExtChars f.data (extnameChars f.data) ++ mid
                  ++ extnameChars f.data⟩ := fun mid h1 h2 => synth_clean f mid h1 h2
  cases size with
  | none => exact hf
  | some s =>
    by_cases hT : s = "thumbnail"
    · have := variantClean "-thumb".data (by decide) (by decide)
      simpa [resolveSizedFilename, hT] using this
    · by_cases hM : s = "medium"
      · have := variantClean "-medium".data (by decide) (by decide)
        simpa [resolveSizedFilename, hM] using this
      · by_cases hL : s = "large"
        · simpa [resolveSizedFilename, hL] using hf
        · simpa [resolveSizedFilename, hL, hT, hM] using hf

theorem resolveSized_thumb (f : String) :
    resolveSizedFilename f (some "thumbnail")
      = ⟨basenameExtChars f.data (extnameChars f.data) ++ "-thumb".data
          ++ extnameChars f.data⟩ := by
  simp [resolveSizedFilename]

theorem resolveSized_medium (f : String) :
    resolveSizedFilename f (some "medium")
      = ⟨basenameExtChars f.data (extnameChars f.data) ++ "-medium".data
          ++ extnameChars f.data⟩ := by
  simp [resolveSizedFilename]

/-! ### Claim theorems -/

/-- C4: for an existing `PHOTO_STORY` tenant that passes the activation
gate, `pickAccessibleAppInstance` allows unconditionally when the
permitted-group set is empty or the caller is elevated, denies an
anonymous caller when the set is non-empty, and otherwise allows exactly
when the caller's group memberships intersect the permitted set. -/
theorem c4_group_gate (db : Store) (slug : String) (authUser : Option AuthUser)
    (app : AppInstance)
    (hfind : db.apps.find? (fun a => a.slug == slug) = some app)
    (htype : app.type = "PHOTO_STORY")
    (hact : app.isActive = true ∨ isPrivilegedRole authUser = true) :
    ((app.configAllowedGroupIds.getD [] = [] ∨ isPrivilegedRole authUser = true) →
      (pickAccessibleAppInstance db slug authUser).allowed = true)
    ∧ (app.configAllowedGroupIds.getD [] ≠ [] → authUser = none →
      (pickAccessibleAppInstance db slug authUser).allowed = false)
    ∧ (∀ u, authUser = some u → isPrivilegedRole authUser = false →
        app.configAllowedGroupIds.getD [] ≠ [] →
        ((pickAccessibleAppInstance db slug authUser).allowed = true ↔
          ∃ g ∈ app.configAllowedGroupIds.getD [], g ∈ userGroupIdsOf db u.id)) := by
  have hty : ¬ app.type ≠ "PHOTO_STORY" := by simp [htype]
  have hgate : (!isPrivilegedRole authUser && !app.isActive) = false := by
    rcases hact with h | h <;> simp [h]
  refine ⟨?_, ?_, ?_⟩
  · rintro (h | h)
    · simp [pickAccessibleAppInstance, hfind, hty, hgate, h]
    · simp [pickAccessibleAppInstance, hfind, hty, hgate, h]
  · intro hne hnone
    subst hnone
    have hactive : app.isActive = true := by
      rcases hact with h | h
      · exact h
      · simp [isPrivilegedRole] at h
    cases hags : app.configAllowedGroupIds.getD [] with
    | nil => exact absurd hags hne
    | cons g gs =>
      simp [pickAccessibleAppInstance, hfind, hty, hgate, hags, hactive,
        isPrivilegedRole]
  · intro u hu hpriv hne
    subst hu
    have hactive : app.isActive = true := by
      rcases hact with h | h
      · exact h
      · exact absurd h (by simp [hpriv])
    cases hags : app.configAllowedGroupIds.getD [] with
    | nil => exact absurd hags hne
    | cons g gs =>
      simp [pickAccessibleAppInstance, hfind, hty, hgate, hags, hpriv, hactive,
        List.any_eq_true]

/-- C4 witness: in the concrete store, tenant `family` is restricted to
group `G1` and user `U1` is a member, so access is allowed. -/
theorem c4_group_gate_witness :
    (pickAccessibleAppInstance dbW "family" (some ⟨"U1", "USER"⟩)).allowed = true :=
  ((c4_group_gate dbW "family" (some ⟨"U1", "USER"⟩) familyApp (by decide)
    (by decide) (by decide)).2.2 ⟨"U1", "USER"⟩ rfl (by decide)
    (by decide)).mpr ⟨"G1", by decide, by decide⟩

/-- C5: an inactive tenant is denied to every non-elevated caller
regardless of group configuration, while an elevated caller is not denied
by the activation gate (and is in fact allowed). -/
theorem c5_inactive_gate (db : Store) (slug : String) (authUser : Option AuthUser)
    (app : AppInstance)
    (hfind : db.apps.find? (fun a => a.slug == slug) = some app)
    (htype : app.type = "PHOTO_STORY")
    (hinactive : app.isActive = false) :
    (isPrivilegedRole authUser = false →
      (pickAccessibleAppInstance db slug authUser).allowed = false)
    ∧ (isPrivilegedRole authUser = true →
      (pickAccessibleAppInstance db slug authUser).allowed = true) := by
  have hty : ¬ app.type ≠ "PHOTO_STORY" := by simp [htype]
  constructor
  · intro h
    simp [pickAccessibleAppInstance, hfind, hty, h, hinactive]
  · intro h
    simp [pickAccessibleAppInstance, hfind, hty, h, hinactive]

/-- C5 witness: the inactive `archive` tenant is denied to an anonymous
caller and allowed to an admin. -/
theorem c5_inactive_gate_witness :
    (pickAccessibleAppInstance dbW "archive" none).allowed = false
    ∧ (pickAccessibleAppInstance dbW "archive" (some ⟨"U9", "ADMIN"⟩)).allowed = true :=
  ⟨(c5_inactive_gate dbW "archive" none archiveApp (by decide) (by decide)
      (by decide)).1 (by decide),
   (c5_inactive_gate dbW "archive" (some ⟨"U9", "ADMIN"⟩) archiveApp (by decide)
      (by decide) (by decide)).2 (by decide)⟩

/-- C6: an unknown slug, and a stored tenant of a kind other than
`PHOTO_STORY`, both resolve to `{tenant: none, allowed: false}` for every
caller identity. -/
theorem c6_not_found_or_wrong_kind (db : Store) (slug : String)
    (authUser : Option AuthUser) :
    (db.apps.find? (fun a => a.slug == slug) = none →
      pickAccessibleAppInstance db slug authUser = ⟨none, false, none⟩)
    ∧ (∀ app, db.apps.find? (fun a => a.slug == slug) = some app →
        app.type ≠ "PHOTO_STORY" →
        pickAccessibleAppInstance db slug authUser = ⟨none, false, none⟩) := by
  constructor
  · intro h
    simp [pickAccessibleAppInstance, h]
  · intro app h hty
    simp [pickAccessibleAppInstance, h, hty]

/-- C6 witness: an absent slug and the `wiki` tenant (wrong kind) both
yield the not-found result, even for an admin caller. -/
theorem c6_not_found_or_wrong_kind_witness :
    pickAccessibleAppInstance dbW "nope" (some ⟨"U9", "ADMIN"⟩) = ⟨none, false, none⟩
    ∧ pickAccessibleAppInstance dbW "wiki" (some ⟨"U9", "ADMIN"⟩) = ⟨none, false, none⟩ :=
  ⟨(c6_not_found_or_wrong_kind dbW "nope" (some ⟨"U9", "ADMIN"⟩)).1 (by decide),
   (c6_not_found_or_wrong_kind dbW "wiki" (some ⟨"U9", "ADMIN"⟩)).2 wikiApp
      (by decide) (by decide)⟩

/-- C10: whenever `pickAccessibleAppInstance` allows, the returned tenant
record is non-null, of kind `PHOTO_STORY`, and either active or accessed
by an elevated caller. -/
theorem c10_allowed_shape (db : Store) (slug : String) (authUser : Option AuthUser)
    (h : (pickAccessibleAppInstance db slug authUser).allowed = true) :
    ∃ app, (pickAccessibleAppInstance db slug authUser).app = some app
      ∧ app.type = "PHOTO_STORY"
      ∧ (app.isActive = true ∨ isPrivilegedRole authUser = true) := by
  cases hfind : db.apps.find? (fun a => a.slug == slug) with
  | none => simp [pickAccessibleAppInstance, hfind] at h
  | some app =>
    by_cases hty : app.type ≠ "PHOTO_STORY"
    · simp [pickAccessibleAppInstance, hfind, hty] at h
    · by_cases hgate : (!isPrivilegedRole authUser && !app.isActive) = true
      · simp [pickAccessibleAppInstance, hfind, hty, hgate] at h
      · have hact : app.isActive = true ∨ isPrivilegedRole authUser = true := by
          rcases Bool.not_eq_true _ ▸ hgate with h'
          cases hp : isPrivilegedRole authUser with
          | true => exact Or.inr rfl
          | false =>
            cases ha : app.isActive with
            | true => exact Or.inl rfl
            | false => rw [hp, ha] at hgate; simp at hgate
        refine ⟨app, ?_, of_not_not hty, hact⟩
        by_cases hg : ((app.configAllowedGroupIds.getD []).isEmpty
            || isPrivilegedRole authUser) = true
        · simp [pickAccessibleAppInstance, hfind, hty, hgate, hg]
        · cases authUser with
          | none => simp [pickAccessibleAppInstance, hfind, hty, hgate, hg]
          | some u => simp [pickAccessibleAppInstance, hfind, hty, hgate, hg]

/-- C10 witness: the open `travel` tenant is allowed anonymously, and the
invariant instantiates there. -/
theorem c10_allowed_shape_witness :
    ∃ app, (pickAccessibleAppInstance dbW "travel" none).app = some app
      ∧ app.type = "PHOTO_STORY"
      ∧ (app.isActive = true ∨ isPrivilegedRole none = true) :=
  c10_allowed_shape dbW "travel" none (by decide)

/-- C8: with a credential present, a cache miss triggers exactly one
network fetch whose handle is memoized under the `(locator, credential)`
key, and an immediately repeated fetch returns the same handle without
fetching again or changing the cache. -/
theorem c8_cache_idempotent (net : String → Option String) (st : ClientState)
    (src token handle : String)
    (hmiss : st.cache.lookup (cacheKey src token) = none)
    (hnet : net src = some handle) :
    (authorizedFetch net (authorizedFetch net st src token).2 src token).1
        = (authorizedFetch net st src token).1
    ∧ (authorizedFetch net (authorizedFetch net st src token).2 src token).2
        = (authorizedFetch net st src token).2
    ∧ (authorizedFetch net (authorizedFetch net st src token).2 src token).2.fetches
        = st.fetches + 1 := by
  have h1 : authorizedFetch net st src token
      = (handle, ⟨(cacheKey src token, handle) :: st.cache, st.fetches + 1⟩) := by
    simp [authorizedFetch, hmiss, hnet]
  have h2 : authorizedFetch net
        (⟨(cacheKey src token, handle) :: st.cache, st.fetches + 1⟩ : ClientState)
        src token
      = (handle, ⟨(cacheKey src token, handle) :: st.cache, st.fetches + 1⟩) := by
    simp [authorizedFetch, List.lookup]
  rw [h1, h2]
  exact ⟨rfl, rfl, rfl⟩

/-- C8 witness: a fresh cache, a successful network fetch returning
`blob:a`, and the repeated request for the same pair. -/
theorem c8_cache_idempotent_witness :
    (authorizedFetch (fun _ => some "blob:a")
        (authorizedFetch (fun _ => some "blob:a") ⟨[], 0⟩ "u" "t").2 "u" "t").1
      = (authorizedFetch (fun _ => some "blob:a") ⟨[], 0⟩ "u" "t").1
    ∧ (authorizedFetch (fun _ => some "blob:a")
        (authorizedFetch (fun _ => some "blob:a") ⟨[], 0⟩ "u" "t").2 "u" "t").2
      = (authorizedFetch (fun _ => some "blob:a") ⟨[], 0⟩ "u" "t").2
    ∧ (authorizedFetch (fun _ => some "blob:a")
        (authorizedFetch (fun _ => some "blob:a") ⟨[], 0⟩ "u" "t").2 "u" "t").2.fetches
      = 0 + 1 :=
  c8_cache_idempotent (fun _ => some "blob:a") ⟨[], 0⟩ "u" "t" "blob:a" rfl rfl

theorem contains_eq_false_of_not_mem {α : Type} [BEq α] [LawfulBEq α]
    {l : List α} {a : α} (h : a ∉ l) : l.contains a = false := by
  cases hb : l.contains a with
  | false => rfl
  | true => exact absurd (by simpa using hb) h

theorem contains_eq_true_of_mem {α : Type} [BEq α] [LawfulBEq α]
    {l : List α} {a : α} (h : a ∈ l) : l.contains a = true := by
  simpa using h

/-- C1: the Secure Path Resolver never yields a path outside the storage
root: every path `resolveUploadsFilePath` returns lies under the resolved
root; it returns `null` whenever the canonicalized joined path does not lie
under the resolved root, for every input string; and a filename whose
normalization retains a parent-directory segment (such as
`../../etc/passwd`) is rejected as invalid input by
`normalizeUploadsPath`, never resolved. -/
theorem c1_traversal_rejected (root s : String)
    (hroot : resolveAbsSegs (splitSegs root.data) ≠ []) :
    (∀ p, resolveUploadsFilePath root s = some p →
      resolveAbsSegs (splitSegs root.data) <+: p)
    ∧ (¬ resolveAbsSegs (splitSegs root.data) <+: pathResolveSegs root s →
      resolveUploadsFilePath root s = none)
    ∧ ((normRelSegs (splitSegs s.data)).contains dotDotSeg = true →
      normalizeUploadsPath s = none) := by
  refine ⟨?_, ?_, ?_⟩
  · intro p hp
    unfold resolveUploadsFilePath at hp
    by_cases hu : underRoot (resolveAbsSegs (splitSegs root.data))
        (pathResolveSegs root s) = true
    · rw [if_pos hu] at hp
      have hpe : pathResolveSegs root s = p := by simpa using hp
      subst hpe
      unfold underRoot at hu
      rw [if_neg (by simpa [List.isEmpty_iff] using hroot)] at hu
      exact (isPrefixOf_eq_true_iff _ _).mp hu
    · rw [if_neg hu] at hp
      simp at hp
  · intro hnp
    unfold resolveUploadsFilePath
    rw [if_neg]
    intro hu
    unfold underRoot at hu
    rw [if_neg (by simpa [List.isEmpty_iff] using hroot)] at hu
    exact hnp ((isPrefixOf_eq_true_iff _ _).mp hu)
  · intro hc
    unfold normalizeUploadsPath
    by_cases h1 : s.data.head? = some '/'
    · rw [if_pos h1]
    · rw [if_neg h1]
      by_cases h2 : (normRelSegs (splitSegs s.data)).isEmpty
      · rw [if_pos h2]
      · rw [if_neg h2, if_pos hc]

/-- C1 witness: `../../etc/passwd` is rejected by the normalizer, and its
canonicalization escapes `/srv/uploads`, so the path resolver returns
`null`. -/
theorem c1_traversal_rejected_witness :
    normalizeUploadsPath "../../etc/passwd" = none
    ∧ resolveUploadsFilePath "/srv/uploads" "../../etc/passwd" = none :=
  ⟨(c1_traversal_rejected "/srv/uploads" "../../etc/passwd" (by decide)).2.2
      (by decide),
   (c1_traversal_rejected "/srv/uploads" "../../etc/passwd" (by decide)).2.1
      (by decide)⟩

/-- C9: for a stored filename containing a directory separator, the
`thumbnail` and `medium` variants are synthesized from the basename only:
the variant contains no separator, and it resolves to a single path
component directly under the storage root (the directory prefix is
dropped); concretely `2024/photo.jpg` becomes `photo-thumb.jpg`. -/
theorem c9_variant_basename_only (f root : String) (hsep : '/' ∈ f.data)
    (hroot : resolveAbsSegs (splitSegs root.data) ≠ []) :
    '/' ∉ (resolveSizedFilename f (some "thumbnail")).data
    ∧ '/' ∉ (resolveSizedFilename f (some "medium")).data
    ∧ resolveUploadsFilePath root (resolveSizedFilename f (some "thumbnail"))
        = some (resolveAbsSegs (splitSegs root.data)
            ++ [(resolveSizedFilename f (some "thumbnail")).data])
    ∧ resolveUploadsFilePath root (resolveSizedFilename f (some "medium"))
        = some (resolveAbsSegs (splitSegs root.data)
            ++ [(resolveSizedFilename f (some "medium")).data])
    ∧ resolveSizedFilename "2024/photo.jpg" (some "thumbnail") = "photo-thumb.jpg" := by
  have hnsT : '/' ∉ (resolveSizedFilename f (some "thumbnail")).data := by
    rw [resolveSized_thumb f]
    exact synth_no_slash f _ (by decide)
  have hnsM : '/' ∉ (resolveSizedFilename f (some "medium")).data := by
    rw [resolveSized_medium f]
    exact synth_no_slash f _ (by decide)
  have hclT : cleanName (resolveSizedFilename f (some "thumbnail")) := by
    rw [resolveSized_thumb f]
    exact synth_clean f _ (by decide) (by decide)
  have hclM : cleanName (resolveSizedFilename f (some "medium")) := by
    rw [resolveSized_medium f]
    exact synth_clean f _ (by decide) (by decide)
  have hneT : (resolveSizedFilename f (some "thumbnail")).data ≠ [] := by
    rw [resolveSized_thumb f]
    exact List.ne_nil_of_mem (List.mem_append_left _
      (List.mem_append_right _ (by decide : '-' ∈ "-thumb".data)))
  have hneM : (resolveSizedFilename f (some "medium")).data ≠ [] := by
    rw [resolveSized_medium f]
    exact List.ne_nil_of_mem (List.mem_append_left _
      (List.mem_append_right _ (by decide : '-' ∈ "-medium".data)))
  refine ⟨hnsT, hnsM, ?_, ?_, by decide⟩
  · rw [resolveUploadsFilePath_of_clean hroot hclT,
      splitSegs_singleton hneT hnsT]
  · rw [resolveUploadsFilePath_of_clean hroot hclM,
      splitSegs_singleton hneM hnsM]

/-- C9 witness: the concrete filename `2024/photo.jpg` with size
`thumbnail` yields `photo-thumb.jpg`, with the `2024/` prefix dropped. -/
theorem c9_variant_basename_only_witness :
    resolveSizedFilename "2024/photo.jpg" (some "thumbnail") = "photo-thumb.jpg" :=
  (c9_variant_basename_only "2024/photo.jpg" "/srv/uploads" (by decide)
    (by decide)).2.2.2.2

/-- C3: a media id not owned by the tenant resolved from the request slug
— whether it belongs to another tenant or does not exist at all — yields
the same `404` "Image not found" response, with no redirect header and no
file sent. -/
theorem c3_cross_tenant_not_found (cfg : ServerEnv) (db : Store)
    (slug mediaId : String) (size : Option String) (authUser : Option AuthUser)
    (app : AppInstance)
    (happ : (pickAccessibleAppInstance db slug authUser).app = some app)
    (hallow : (pickAccessibleAppInstance db slug authUser).allowed = true)
    (hown : ∀ p ∈ db.posts, p.mediaId = mediaId → p.appInstanceId ≠ app.id) :
    serveImage cfg db slug mediaId size authUser
      = jsonResponse 404 "Image not found" := by
  have hfind : db.posts.find?
      (fun p => p.appInstanceId == app.id && p.mediaId == mediaId) = none := by
    apply List.find?_eq_none.mpr
    intro p hp
    by_cases hm : p.mediaId = mediaId
    · have hne := hown p hp hm
      simp [hne]
    · simp [hm]
  simp [serveImage, happ, hallow, hfind]

/-- C3 witness: media `m2` belongs to the `family` tenant; requested
through the `travel` slug it is answered exactly like a nonexistent id. -/
theorem c3_cross_tenant_not_found_witness :
    serveImage cfgW dbW "travel" "m2" none none
      = jsonResponse 404 "Image not found" :=
  c3_cross_tenant_not_found cfgW dbW "travel" "m2" none none travelApp
    (by decide) (by decide) (by decide)

/-- C7: `photo.jpg` at size `thumbnail` becomes `photo-thumb.jpg`; an
absent, `large`, or unrecognized size leaves every filename unchanged; and
when the synthesized variant is absent on storage but the canonical file
exists, the image route answers `200` serving the canonical file. -/
theorem c7_size_selection_and_fallback :
    resolveSizedFilename "photo.jpg" (some "thumbnail") = "photo-thumb.jpg"
    ∧ (∀ f : String, resolveSizedFilename f none = f)
    ∧ (∀ f : String, resolveSizedFilename f (some "large") = f)
    ∧ (∀ (f s : String), s ≠ "thumbnail" → s ≠ "medium" → s ≠ "large" →
        resolveSizedFilename f (some s) = f)
    ∧ (∀ (cfg : ServerEnv) (db : Store) (slug mediaId : String)
        (size : Option String) (authUser : Option AuthUser)
        (app : AppInstance) (post : PhotoPost) (safe : String),
        resolveAbsSegs (splitSegs (getUploadsRootDir cfg).data) ≠ [] →
        (pickAccessibleAppInstance db slug authUser).app = some app →
        (pickAccessibleAppInstance db slug authUser).allowed = true →
        db.posts.find? (fun p => p.appInstanceId == app.id && p.mediaId == mediaId)
          = some post →
        normalizeUploadsPath (rawFilenameOf post) = some safe →
        (resolveAbsSegs (splitSegs (getUploadsRootDir cfg).data)
          ++ splitSegs (resolveSizedFilename safe size).data) ∉ db.files →
        (resolveAbsSegs (splitSegs (getUploadsRootDir cfg).data)
          ++ splitSegs safe.data) ∈ db.files →
        cfg.uploadsServeStrategy ≠ "accel" →
        serveImage cfg db slug mediaId size authUser
          = ⟨200, none, some "private, max-age=300", none,
              some (resolveAbsSegs (splitSegs (getUploadsRootDir cfg).data)
                ++ splitSegs safe.data)⟩) := by
  refine ⟨by decide, ?_, ?_, ?_, ?_⟩
  · intro f; rfl
  · intro f; simp [resolveSizedFilename]
  · intro f s h1 h2 h3
    simp [resolveSizedFilename, h1, h2, h3]
  · intro cfg db slug mediaId size authUser app post safe
      hroot happ hallow hfind hnorm hmiss hhit hstrat
    have hsafe := cleanName_of_normalize hnorm
    have hreq := resolveUploadsFilePath_of_clean hroot
      (cleanName_resolveSized hsafe size)
    have hfall := resolveUploadsFilePath_of_clean hroot hsafe
    have hc1 := contains_eq_false_of_not_mem hmiss
    have hc2 := contains_eq_true_of_mem hhit
    simp only [serveImage, happ, hallow, hfind, hnorm, hreq, hfall, hc1, hc2,
      Bool.not_true, Bool.not_false, if_false, if_true,
      pathResolveSegs_of_clean hsafe]
    simp [hstrat, hhit, pathResolveSegs_of_clean hsafe]

/-- C7 witness: end-to-end scenario A — `sunset-medium.jpg` is absent on
disk, so the route serves the canonical `sunset.jpg` with status 200. -/
theorem c7_size_selection_and_fallback_witness :
    serveImage cfgW dbW "travel" "m1" (some "medium") none
      = ⟨200, none, some "private, max-age=300", none,
          some (resolveAbsSegs (splitSegs (getUploadsRootDir cfgW).data)
            ++ splitSegs ("sunset.jpg" : String).data)⟩ :=
  c7_size_selection_and_fallback.2.2.2.2 cfgW dbW "travel" "m1" (some "medium")
    none travelApp sunsetPost "sunset.jpg" (by decide) (by decide) (by decide)
    (by decide) (by decide) (by decide) (by decide) (by decide)

/-- C2 counterexample: the `family` tenant exists and denies the anonymous
caller (group-restricted), yet the image route answers 404, not the 403
the claim states. -/
theorem c2_denial_status_counterexample :
    (pickAccessibleAppInstance dbW "family" none).app = some familyApp
    ∧ (pickAccessibleAppInstance dbW "family" none).allowed = false
    ∧ (serveImage cfgW dbW "family" "m2" none none).status = 404
    ∧ ¬ (serveImage cfgW dbW "family" "m2" none none).status = 403 := by
  decide

/-- C2 (amended): the image route never answers 403; a policy denial is
reported as 404 exactly like a failed tenant lookup; 404 holds exactly
when access resolution fails (tenant missing, wrong kind, inactive, or
group denial), the media is not owned by the tenant, or neither the
requested variant nor the canonical file exists on storage; and 400 holds
exactly when the stored filename cannot be normalized safely. -/
theorem c2_amended_status_taxonomy (cfg : ServerEnv) (db : Store)
    (slug mediaId : String) (size : Option String) (authUser : Option AuthUser)
    (hroot : resolveAbsSegs (splitSegs (getUploadsRootDir cfg).data) ≠ []) :
    (serveImage cfg db slug mediaId size authUser).status ≠ 403
    ∧ ((serveImage cfg db slug mediaId size authUser).status = 400 ↔
        ∃ app post, (pickAccessibleAppInstance db slug authUser).app = some app
          ∧ (pickAccessibleAppInstance db slug authUser).allowed = true
          ∧ db.posts.find?
              (fun p => p.appInstanceId == app.id && p.mediaId == mediaId)
              = some post
          ∧ normalizeUploadsPath (rawFilenameOf post) = none)
    ∧ ((serveImage cfg db slug mediaId size authUser).status = 404 ↔
        ((pickAccessibleAppInstance db slug authUser).app = none
          ∨ (pickAccessibleAppInstance db slug authUser).allowed = false
          ∨ (∃ app, (pickAccessibleAppInstance db slug authUser).app = some app
              ∧ (pickAccessibleAppInstance db slug authUser).allowed = true
              ∧ db.posts.find?
                  (fun p => p.appInstanceId == app.id && p.mediaId == mediaId)
                  = none)
          ∨ (∃ app post safe,
              (pickAccessibleAppInstance db slug authUser).app = some app
              ∧ (pickAccessibleAppInstance db slug authUser).allowed = true
              ∧ db.posts.find?
                  (fun p => p.appInstanceId == app.id && p.mediaId == mediaId)
                  = some post
              ∧ normalizeUploadsPath (rawFilenameOf post) = some safe
              ∧ (resolveAbsSegs (splitSegs (getUploadsRootDir cfg).data)
                  ++ splitSegs (resolveSizedFilename safe size).data) ∉ db.files
              ∧ (resolveAbsSegs (splitSegs (getUploadsRootDir cfg).data)
                  ++ splitSegs safe.data) ∉ db.files))) := by
  cases happ : (pickAccessibleAppInstance db slug authUser).app with
  | none =>
    have hserve : serveImage cfg db slug mediaId size authUser
        = jsonResponse 404 "App not found" := by
      simp [serveImage, happ]
    rw [hserve]
    refine ⟨by decide, ?_, ?_⟩
    · constructor
      · intro h; exact absurd h (by decide)
      · rintro ⟨app', post', happ', -, -, -⟩
        exact Option.noConfusion happ'
    · constructor
      · intro _; exact Or.inl rfl
      · intro _; rfl
  | some app =>
    cases hallow : (pickAccessibleAppInstance db slug authUser).allowed with
    | false =>
      have hserve : serveImage cfg db slug mediaId size authUser
          = jsonResponse 404 "App not found" := by
        simp [serveImage, happ, hallow]
      rw [hserve]
      refine ⟨by decide, ?_, ?_⟩
      · constructor
        · intro h; exact absurd h (by decide)
        · rintro ⟨app', post', -, hallow', -, -⟩
          exact Bool.noConfusion hallow'
      · constructor
        · intro _; exact Or.inr (Or.inl rfl)
        · intro _; rfl
    | true =>
      cases hfind : db.posts.find?
          (fun p => p.appInstanceId == app.id && p.mediaId == mediaId) with
      | none =>
        have hserve : serveImage cfg db slug mediaId size authUser
            = jsonResponse 404 "Image not found" := by
          simp [serveImage, happ, hallow, hfind]
        rw [hserve]
        refine ⟨by decide, ?_, ?_⟩
        · constructor
          · intro h; exact absurd h (by decide)
          · rintro ⟨app', post', happ', -, hfind', -⟩
            obtain rfl : app = app' := Option.some.inj happ'
            exact Option.noConfusion (hfind.symm.trans hfind')
        · constructor
          · intro _
            exact Or.inr (Or.inr (Or.inl ⟨app, rfl, rfl, hfind⟩))
          · intro _; rfl
      | some post =>
        cases hnorm : normalizeUploadsPath (rawFilenameOf post) with
        | none =>
          have hserve : serveImage cfg db slug mediaId size authUser
              = jsonResponse 400 "Invalid media filename" := by
            simp [serveImage, happ, hallow, hfind, hnorm]
          rw [hserve]
          refine ⟨by decide, ?_, ?_⟩
          · constructor
            · intro _; exact ⟨app, post, rfl, rfl, hfind, hnorm⟩
            · intro _; rfl
          · constructor
            · intro h; exact absurd h (by decide)
            · rintro (h | h | ⟨app', happ', -, hfind'⟩
                | ⟨app', post', safe', happ', -, hfind', hnorm', -, -⟩)
              · exact Option.noConfusion h
              · exact Bool.noConfusion h
              · obtain rfl : app = app' := Option.some.inj happ'
                exact Option.noConfusion (hfind.symm.trans hfind')
              · obtain rfl : app = app' := Option.some.inj happ'
                obtain rfl : post = post' := Option.some.inj (hfind.symm.trans hfind')
                exact Option.noConfusion (hnorm.symm.trans hnorm')
        | some safe =>
          have hsafe := cleanName_of_normalize hnorm
          have hreq := resolveUploadsFilePath_of_clean hroot
            (cleanName_resolveSized hsafe size)
          have hfall := resolveUploadsFilePath_of_clean hroot hsafe
          by_cases hrq : (resolveAbsSegs (splitSegs (getUploadsRootDir cfg).data)
              ++ splitSegs (resolveSizedFilename safe size).data) ∈ db.files
          · have hc1 := contains_eq_true_of_mem hrq
            have hstatus : (serveImage cfg db slug mediaId size authUser).status
                = 200 := by
              by_cases hstrat : cfg.uploadsServeStrategy = "accel"
              · simp [serveImage, happ, hallow, hfind, hnorm, hreq, hfall, hc1,
                  hrq, hstrat]
              · simp [serveImage, happ, hallow, hfind, hnorm, hreq, hfall, hc1,
                  hrq, hstrat]
            refine ⟨by simp [hstatus], ?_, ?_⟩
            · rw [hstatus]
              constructor
              · intro h; exact absurd h (by decide)
              · rintro ⟨app', post', happ', -, hfind', hnorm'⟩
                obtain rfl : app = app' := Option.some.inj happ'
                obtain rfl : post = post' := Option.some.inj (hfind.symm.trans hfind')
                exact Option.noConfusion (hnorm.symm.trans hnorm')
            · rw [hstatus]
              constructor
              · intro h; exact absurd h (by decide)
              · rintro (h | h | ⟨app', happ', -, hfind'⟩
                  | ⟨app', post', safe', happ', -, hfind', hnorm', hmiss', -⟩)
                · exact Option.noConfusion h
                · exact Bool.noConfusion h
                · obtain rfl : app = app' := Option.some.inj happ'
                  exact Option.noConfusion (hfind.symm.trans hfind')
                · obtain rfl : app = app' := Option.some.inj happ'
                  obtain rfl : post = post' := Option.some.inj (hfind.symm.trans hfind')
                  obtain rfl : safe = safe' := Option.some.inj (hnorm.symm.trans hnorm')
                  exact absurd hrq hmiss'
          · have hc1 := contains_eq_false_of_not_mem hrq
            by_cases hfb : (resolveAbsSegs (splitSegs (getUploadsRootDir cfg).data)
                ++ splitSegs safe.data) ∈ db.files
            · have hc2 := contains_eq_true_of_mem hfb
              have hstatus : (serveImage cfg db slug mediaId size authUser).status
                  = 200 := by
                by_cases hstrat : cfg.uploadsServeStrategy = "accel"
                · simp [serveImage, happ, hallow, hfind, hnorm, hreq, hfall,
                    hc1, hc2, hrq, hfb, hstrat]
                · simp [serveImage, happ, hallow, hfind, hnorm, hreq, hfall,
                    hc1, hc2, hrq, hfb, hstrat]
              refine ⟨by simp [hstatus], ?_, ?_⟩
              · rw [hstatus]
                constructor
                · intro h; exact absurd h (by decide)
                · rintro ⟨app', post', happ', -, hfind', hnorm'⟩
                  obtain rfl : app = app' := Option.some.inj happ'
                  obtain rfl : post = post' := Option.some.inj (hfind.symm.trans hfind')
                  exact Option.noConfusion (hnorm.symm.trans hnorm')
              · rw [hstatus]
                constructor
                · intro h; exact absurd h (by decide)
                · rintro (h | h | ⟨app', happ', -, hfind'⟩
                    | ⟨app', post', safe', happ', -, hfind', hnorm', -, hfall'⟩)
                  · exact Option.noConfusion h
                  · exact Bool.noConfusion h
                  · obtain rfl : app = app' := Option.some.inj happ'
                    exact Option.noConfusion (hfind.symm.trans hfind')
                  · obtain rfl : app = app' := Option.some.inj happ'
                    obtain rfl : post = post' := Option.some.inj (hfind.symm.trans hfind')
                    obtain rfl : safe = safe' := Option.some.inj (hnorm.symm.trans hnorm')
                    exact absurd hfb hfall'
            · have hc2 := contains_eq_false_of_not_mem hfb
              have hserve : serveImage cfg db slug mediaId size authUser
                  = jsonResponse 404 "File not found" := by
                simp [serveImage, happ, hallow, hfind, hnorm, hreq, hfall,
                  hc1, hc2, hrq, hfb]
              rw [hserve]
              refine ⟨by decide, ?_, ?_⟩
              · constructor
                · intro h; exact absurd h (by decide)
                · rintro ⟨app', post', happ', -, hfind', hnorm'⟩
                  obtain rfl : app = app' := Option.some.inj happ'
                  obtain rfl : post = post' := Option.some.inj (hfind.symm.trans hfind')
                  exact Option.noConfusion (hnorm.symm.trans hnorm')
              · constructor
                · intro _
                  exact Or.inr (Or.inr (Or.inr
                    ⟨app, post, safe, rfl, rfl, hfind, hnorm, hrq, hfb⟩))
                · intro _; rfl

/-- C2 witness: in the concrete store, the missing `fam.jpg` file makes
both the 404 characterization and the never-403 clause hold at a
reachable input. -/
theorem c2_amended_status_taxonomy_witness :
    (serveImage cfgW dbW "family" "m2" none (some ⟨"U1", "USER"⟩)).status ≠ 403
    ∧ (serveImage cfgW dbW "family" "m2" none (some ⟨"U1", "USER"⟩)).status = 404 :=
  ⟨(c2_amended_status_taxonomy cfgW dbW "family" "m2" none (some ⟨"U1", "USER"⟩)
      (by decide)).1,
   (c2_amended_status_taxonomy cfgW dbW "family" "m2" none (some ⟨"U1", "USER"⟩)
      (by decide)).2.2.mpr
     (Or.inr (Or.inr (Or.inr ⟨familyApp, famPost, "fam.jpg", by decide, by decide,
        by decide, by decide, by decide, by decide⟩)))⟩

end PhotoStory
